import Mathlib

/-!
# NLP_Finder — verification of the indexing & search engine spec

Shallow embedding of the NLP_Finder system.  The React frontend
(`DirectorySelector.jsx`, `SearchInterface.jsx`, …) is embedded directly
from its source.  The Python backend (chunker, vector store, indexing
orchestrator, search engine) is not part of the provided sources, so those
components are modelled from the specification, faithfully following its
wording; each such definition is marked `Modelled from the spec:`.
-/

namespace NLPFinder

/-! ## Configuration constants

From the repository's documented `backend/config.py` values
(README / project overview): `CHUNK_SIZE = 1000`, `CHUNK_OVERLAP = 200`,
`TOP_K_RESULTS = 20`, `SIMILARITY_THRESHOLD = 0.3`. -/

def CHUNK_SIZE : Nat := 1000

def CHUNK_OVERLAP : Nat := 200

def TOP_K_RESULTS : Nat := 20

def SIMILARITY_THRESHOLD : ℚ := 3 / 10

/-! ## Frontend: `DirectorySelector.getProgressPercentage`

Embedded from `DirectorySelector.jsx`:

```js
const getProgressPercentage = () => {
  if (!progress || !progress.total) return 0;
  return Math.round((progress.current / progress.total) * 100);
};
```

`progress` may be `null` (modelled by `Option`), and `progress.total` may
be `0` or missing (modelled by `Option Nat`); both are falsy in JS. -/

structure ProgressRec where
  current : Nat
  total : Option Nat
deriving Repr, DecidableEq

def getProgressPercentage (progress : Option ProgressRec) : ℤ :=
  match progress with
  | none => 0
  | some p =>
    match p.total with
    | none => 0
    | some t => if t = 0 then 0 else round (((p.current : ℚ) / (t : ℚ)) * 100)

/-! ## Frontend: `SearchInterface.handleSearch` search-history update

Embedded from `SearchInterface.jsx`:

```js
if (!searchQuery.trim()) { setError(...); return; }
try {
  const results = await searchFiles(searchQuery);
  const newHistory = [
    searchQuery,
    ...searchHistory.filter(q => q !== searchQuery)
  ].slice(0, 10);
  setSearchHistory(newHistory);
  localStorage.setItem('searchHistory', JSON.stringify(newHistory));
  ...
} catch (err) { ... }   // history not touched on failure
```
-/

def updateHistory (query : String) (history : List String) : List String :=
  (query :: history.filter (fun q => q ≠ query)).take 10

/-- The search-history state after `handleSearch query` runs with prior
history `history`; `searchOk` tells whether the `searchFiles` call
succeeded.  The guard `!searchQuery.trim()` (query trims to nothing, i.e.
every character is whitespace) returns early without searching. -/
def handleSearch (query : String) (history : List String) (searchOk : Bool) :
    List String :=
  if query.toList.all Char.isWhitespace then history
  else if searchOk then updateHistory query history
  else history

/-! ## Chunker -/

inductive ChunkError where
  | InvalidConfiguration
deriving Repr, DecidableEq

/-- A text chunk: the window's characters and its start offset in the
original text. -/
structure Chunk where
  text : List Char
  char_offset : Nat
deriving Repr, DecidableEq

/-- Modelled from the spec: the raw window list of the Chunker.  "Splits
`text` into windows of `chunk_size` characters, advancing by
`chunk_size - overlap` each step […] Last window is truncated to the
remaining text, never padded."  `size` is the window size and `step` the
advance; each window is paired with its start offset. -/
def chunkRaw (size step : Nat) : List Char → Nat → List (Nat × List Char)
  | [], _ => []
  | a :: l, off =>
    if _h : step = 0 then []
    else (off, ((a :: l).take size)) ::
      chunkRaw size step ((a :: l).drop step) (off + step)
termination_by t _ => t.length
decreasing_by simp [List.length_drop]; omega

/-- A window survives iff it is not whitespace-only ("Windows consisting
only of whitespace are dropped"). -/
def keepWindow (w : Nat × List Char) : Bool :=
  w.2.any (fun c => !c.isWhitespace)

/-- Modelled from the spec: `chunk(text, chunk_size, overlap)`.  Fails with
`InvalidConfiguration` unless `overlap < chunk_size`; otherwise windows of
`chunk_size` characters advancing by `chunk_size - overlap`, whitespace-only
windows dropped, each chunk recording its `char_offset`. -/
def chunk (text : List Char) (chunk_size overlap : Nat) :
    Except ChunkError (List Chunk) :=
  if chunk_size ≤ overlap then .error .InvalidConfiguration
  else .ok (((chunkRaw chunk_size (chunk_size - overlap) text 0).filter
      keepWindow).map (fun w => ⟨w.2, w.1⟩))

/-- The contribution of one chunk to the reconstruction of the original
text: every chunk after the first drops the `overlap` characters it shares
with its predecessor. -/
def chunkPiece (overlap : Nat) (c : Chunk) : List Char :=
  if c.char_offset = 0 then c.text else c.text.drop overlap

/-- The "concatenation minus the overlap" of a chunk list. -/
def reconstruct (overlap : Nat) (cs : List Chunk) : List Char :=
  (cs.map (chunkPiece overlap)).flatten

/-- Concatenation of the non-initial windows' texts, each minus the
overlap. -/
def joinDrops (overlap : Nat) (ws : List (Nat × List Char)) : List Char :=
  (ws.map (fun w => w.2.drop overlap)).flatten

/-! ## Vector store and search engine -/

/-- Chunk metadata stored alongside each vector: the owning document's
identity plus the chunk's text and position ("a separate metadata store
keyed by absolute file path holding `{file_name, file_size, total_chunks}`
per document"). -/
structure ChunkMeta where
  file_path : String
  file_name : String
  file_size : Nat
  chunk_text : List Char
  chunk_index : Nat
  total_chunks : Nat
deriving Repr, DecidableEq

/-- One vector-store entry: `(chunk_id, embedding)` plus the chunk's
metadata.  A `VectorIndex` is the ordered collection of these entries. -/
structure VSEntry where
  chunk_id : Nat
  embedding : List ℚ
  metadata : ChunkMeta
deriving Repr, DecidableEq

/-- Modelled from the spec: similarity "expressed as a 0–100 score
(`round(cosine_similarity * 100)`, clamped to [0,100])". -/
def scoreOf (s : ℚ) : ℤ :=
  max 0 (min 100 (round (s * 100)))

/-- Stable descending insertion: an element is placed after every earlier
element with an equal or higher score, so ties keep insertion order. -/
def insertDesc (a : Nat × ℤ) : List (Nat × ℤ) → List (Nat × ℤ)
  | [] => [a]
  | b :: bs => if b.2 < a.2 then a :: b :: bs else b :: insertDesc a bs

/-- Stable sort by descending score. -/
def sortByScoreDesc : List (Nat × ℤ) → List (Nat × ℤ)
  | [] => []
  | a :: as => insertDesc a (sortByScoreDesc as)

/-- Modelled from the spec: Vector Store `search` — "computes cosine
similarity between `query_embedding` and every stored embedding, returns
the `top_k` highest, ties broken by original insertion order (stable
sort)".  The real cosine of the query against a stored embedding is not a
rational-valued computation, so the similarity of the query against a
stored embedding is abstracted as a function `sim` of the stored
embedding; every result below instantiates it concretely. -/
def vsSearch (sim : List ℚ → ℚ) (entries : List VSEntry) (top_k : Nat) :
    List (Nat × ℤ) :=
  (sortByScoreDesc (entries.map
    (fun e => (e.chunk_id, scoreOf (sim e.embedding))))).take top_k

/-- A search result as produced by the Search Engine (never persisted). -/
structure SearchResult where
  file_name : String
  file_path : String
  file_size : Nat
  chunk_text : List Char
  chunk_index : Nat
  total_chunks : Nat
  similarity_score : ℤ
deriving Repr, DecidableEq

inductive SearchError where
  | IndexNotFound
  | ServiceUnavailable
  | ModelUnavailable
deriving Repr, DecidableEq

/-- Resolve a surviving `(chunk_id, score)` pair back to its Chunk and
owning Document. -/
def resolveResult (entries : List VSEntry) (r : Nat × ℤ) :
    Option SearchResult :=
  (entries.find? (fun e => e.chunk_id == r.1)).map fun e =>
    { file_name := e.metadata.file_name
      file_path := e.metadata.file_path
      file_size := e.metadata.file_size
      chunk_text := e.metadata.chunk_text
      chunk_index := e.metadata.chunk_index
      total_chunks := e.metadata.total_chunks
      similarity_score := r.2 }

/-- Modelled from the spec: Search Engine `search`.  "Fails with
`IndexNotFound` if no index has ever been published. […] Calls Vector
Store `search` with `top_k = top_k_override or TOP_K_DEFAULT`.  Drops
results with `similarity_score < SIMILARITY_THRESHOLD * 100`.  Resolves
each surviving `chunk_id` back to its Chunk and owning Document." -/
def engineSearch (sim : List ℚ → ℚ) (published : Option (List VSEntry))
    (top_k_override : Option Nat) : Except SearchError (List SearchResult) :=
  match published with
  | none => .error .IndexNotFound
  | some entries =>
    .ok (((vsSearch sim entries (top_k_override.getD TOP_K_RESULTS)).filter
        (fun r => decide (SIMILARITY_THRESHOLD * 100 ≤ (r.2 : ℚ)))).filterMap
      (resolveResult entries))

/-! ## Persistence -/

/-- Modelled from the spec: the durable artifacts — "a durable
vector-store artifact (vectors + chunk-id mapping) and a separate metadata
store". -/
structure PersistedStore where
  vectors : List (Nat × List ℚ)
  metadataByChunk : List (Nat × ChunkMeta)
deriving Repr, DecidableEq

/-- Modelled from the spec: `persist()` — "write vectors + chunk metadata
to durable storage"; both artifacts are "rewritten wholesale". -/
def persist (idx : List VSEntry) : PersistedStore :=
  { vectors := idx.map fun e => (e.chunk_id, e.embedding)
    metadataByChunk := idx.map fun e => (e.chunk_id, e.metadata) }

inductive LoadError where
  | NotFound
deriving Repr, DecidableEq

/-- Modelled from the spec: `load() -> VectorIndex | NotFound` — rebuilds
the entries by joining the vector artifact with the metadata store on
`chunk_id`. -/
def load (storage : Option PersistedStore) :
    Except LoadError (List VSEntry) :=
  match storage with
  | none => .error .NotFound
  | some ps => .ok (ps.vectors.filterMap fun v =>
      (ps.metadataByChunk.lookup v.1).map fun m =>
        { chunk_id := v.1, embedding := v.2, metadata := m })

/-- The `(chunk_id, embedding, metadata)` triple of an entry. -/
def entryTriple (e : VSEntry) : Nat × List ℚ × ChunkMeta :=
  (e.chunk_id, e.embedding, e.metadata)

/-! ## Indexing orchestrator state machine -/

inductive JobStatus where
  | Idle | Scanning | Processing | Building | Completed | Failed
deriving Repr, DecidableEq

/-- A job is active while `Scanning`/`Processing`/`Building`. -/
def JobStatus.isActive : JobStatus → Bool
  | .Scanning => true
  | .Processing => true
  | .Building => true
  | _ => false

/-- The pollable job record ("single global instance; created fresh each
time indexing starts"). -/
structure IndexingJob where
  status : JobStatus
  current_count : Nat
  total_count : Nat
  message : String
  target_directory : String
deriving Repr, DecidableEq

/-- Whole orchestrator state: the job record, the pending index under
construction, the published index and the durable storage.  `jobGen`
counts job-record instances (bumped whenever the record is replaced), a
modelling artifact used to say "within one indexing job". -/
structure OrchState where
  job : IndexingJob
  jobGen : Nat
  pending : List VSEntry
  published : Option (List VSEntry)
  storage : Option PersistedStore
deriving Repr, DecidableEq

/-- The fresh job created by a successful `start_indexing` call. -/
def freshJob (dir : String) : IndexingJob :=
  { status := .Scanning, current_count := 0, total_count := 0,
    message := "Starting...", target_directory := dir }

/-- The reset job record after `clear_index`. -/
def idleJob : IndexingJob :=
  { status := .Idle, current_count := 0, total_count := 0,
    message := "", target_directory := "" }

inductive StartError where
  | ConcurrentIndexError
  | InvalidDirectory
deriving Repr, DecidableEq

/-- Modelled from the spec: `start_indexing(directory)` steps 1–2 —
"Rejects with `ConcurrentIndexError` if a job is already
`Scanning`/`Processing`/`Building`", then validates the directory
(validity supplied by the external Scanner as `dirValid`), then
transitions to `Scanning` with a fresh job. -/
def start_indexing (s : OrchState) (dir : String) (dirValid : Bool) :
    Except StartError Unit × OrchState :=
  if s.job.status.isActive then (.error .ConcurrentIndexError, s)
  else if !dirValid then (.error .InvalidDirectory, s)
  else (.ok (),
    { s with job := freshJob dir, jobGen := s.jobGen + 1, pending := [] })

inductive ClearError where
  | ClearWhileRunning
deriving Repr, DecidableEq

/-- Modelled from the spec: `clear_index()` — "only valid when no job is
actively running; it calls Vector Store `clear()` and resets job state to
`Idle`".  `clear()` "drops all state, both in memory and on durable
storage". -/
def clear_index (s : OrchState) : Except ClearError Unit × OrchState :=
  if s.job.status.isActive then (.error .ClearWhileRunning, s)
  else (.ok (),
    { job := idleJob, jobGen := s.jobGen + 1, pending := [],
      published := none, storage := none })

/-- The spec's `get_progress() -> IndexingJob`, a pure, non-blocking
read. -/
def get_progress (s : OrchState) : IndexingJob := s.job

/-- Observable transition labels of an indexing run. -/
inductive StepLabel where
  | startJob (dir : String)
  | scanDone (total : Nat)
  | fileProcessed (entries : List VSEntry)
  | fileSkipped
  | processingDone
  | publishIndex
  | failJob (msg : String)
  | clearIdx
deriving Repr, DecidableEq

/-- Modelled from the spec: the orchestrator state machine
`Idle -> Scanning -> Processing -> Building -> Completed`, any active
state able to transition to `Failed`; per-file steps bump
`current_count`; `publish` is the single atomic point installing the
pending index and persisting it; `start_indexing`/`clear_index` replace
the job record. -/
inductive Step : OrchState → StepLabel → OrchState → Prop where
  | startJob (s : OrchState) (dir : String)
      (h : s.job.status.isActive = false) :
      Step s (.startJob dir)
        { s with job := freshJob dir, jobGen := s.jobGen + 1, pending := [] }
  | scanDone (s : OrchState) (n : Nat) (h : s.job.status = .Scanning) :
      Step s (.scanDone n)
        { s with job :=
            { s.job with status := .Processing, total_count := n } }
  | fileOk (s : OrchState) (es : List VSEntry)
      (h : s.job.status = .Processing) :
      Step s (.fileProcessed es)
        { s with
          job := { s.job with current_count := s.job.current_count + 1 },
          pending := s.pending ++ es }
  | fileSkip (s : OrchState) (h : s.job.status = .Processing) :
      Step s .fileSkipped
        { s with
          job := { s.job with current_count := s.job.current_count + 1 } }
  | processingDone (s : OrchState) (h : s.job.status = .Processing) :
      Step s .processingDone
        { s with job := { s.job with status := .Building } }
  | publishIndex (s : OrchState) (h : s.job.status = .Building) :
      Step s .publishIndex
        { s with job := { s.job with status := .Completed },
                 published := some s.pending,
                 storage := some (persist s.pending) }
  | failJob (s : OrchState) (msg : String)
      (h : s.job.status.isActive = true) :
      Step s (.failJob msg)
        { s with job := { s.job with status := .Failed, message := msg } }
  | clearIdx (s : OrchState) (h : s.job.status.isActive = false) :
      Step s .clearIdx
        { job := idleJob, jobGen := s.jobGen + 1, pending := [],
          published := none, storage := none }

/-- Finite executions of the orchestrator. -/
inductive Trace : OrchState → List StepLabel → OrchState → Prop where
  | refl (s : OrchState) : Trace s [] s
  | cons {s m t : OrchState} {l : StepLabel} {ls : List StepLabel} :
      Step s l m → Trace m ls t → Trace s (l :: ls) t

/-- Job states in `Scanning` carry virgin counters (they were just created
by `freshJob`); preserved by every step. -/
def ScanFresh (s : OrchState) : Prop :=
  s.job.status = .Scanning → s.job.current_count = 0 ∧ s.job.total_count = 0

/-! ## Frontend: `DirectorySelector` polling loop

Embedded from `DirectorySelector.jsx`:

```js
if (progressData.status === 'completed') {
  setIsIndexing(false); setError(''); ...
} else if (progressData.status === 'error') {
  setIsIndexing(false); setError(progressData.message);
}
```
-/

inductive PollAction where
  | stopSuccess
  | stopError
  | keepPolling
deriving Repr, DecidableEq

def pollHandle (status : String) : PollAction :=
  if status = "completed" then .stopSuccess
  else if status = "error" then .stopError
  else .keepPolling

/-! ## Sample data (used to instantiate the theorems) -/

def metaA : ChunkMeta :=
  { file_path := "/docs/a.txt", file_name := "a.txt", file_size := 5,
    chunk_text := "hello".toList, chunk_index := 0, total_chunks := 1 }

def metaB : ChunkMeta :=
  { file_path := "/docs/b.txt", file_name := "b.txt", file_size := 7,
    chunk_text := "world".toList, chunk_index := 0, total_chunks := 1 }

def entryA : VSEntry := { chunk_id := 0, embedding := [1, 0], metadata := metaA }

def entryB : VSEntry := { chunk_id := 1, embedding := [0, 1], metadata := metaB }

def sampleProcessing : OrchState :=
  { job := { status := .Processing, current_count := 1, total_count := 3,
             message := "Processing files", target_directory := "/docs" },
    jobGen := 1, pending := [entryA],
    published := some [entryA, entryB],
    storage := some (persist [entryA, entryB]) }

/-- The state reached from `sampleProcessing` by a fatal failure step. -/
def sampleFailed : OrchState :=
  { sampleProcessing with
    job := { sampleProcessing.job with
               status := .Failed,
               message := "embedding service unreachable" } }

def sampleIdle : OrchState :=
  { job := idleJob, jobGen := 0, pending := [], published := none,
    storage := none }

/-- The state reached from `sampleProcessing` by one `fileSkipped` step. -/
def sampleProcessed : OrchState :=
  { sampleProcessing with
    job := { sampleProcessing.job with
               current_count := sampleProcessing.job.current_count + 1 } }

/-! # Theorems -/

/-! ## C10 — `getProgressPercentage` is total -/

/-- C10: `getProgressPercentage` is total: for every progress record it
returns 0 whenever the record is absent or its `total` field is 0 or
missing (never dividing by zero), and otherwise returns
`round(current / total * 100)`. -/
theorem getProgressPercentage_total :
    getProgressPercentage none = 0 ∧
    (∀ c : Nat, getProgressPercentage (some ⟨c, none⟩) = 0) ∧
    (∀ c : Nat, getProgressPercentage (some ⟨c, some 0⟩) = 0) ∧
    (∀ c t : Nat, t ≠ 0 →
      getProgressPercentage (some ⟨c, some t⟩) =
        round (((c : ℚ) / (t : ℚ)) * 100)) := by
  refine ⟨rfl, fun _ => rfl, fun _ => rfl, fun c t ht => ?_⟩
  simp [getProgressPercentage, ht]

/-- Witness for C10 at a concrete input: 3 of 4 files is 75%. -/
theorem getProgressPercentage_total_witness :
    (4 : Nat) ≠ 0 ∧ getProgressPercentage (some ⟨3, some 4⟩) = 75 := by
  refine ⟨by decide, ?_⟩
  rw [getProgressPercentage_total.2.2.2 3 4 (by decide)]
  norm_num [round_eq]

/-! ## C9 — search history invariants -/

/-- C9: after every successful search the persisted history has the
just-searched query first, no duplicates and length at most 10; a failed
search leaves it unchanged. -/
theorem handleSearch_history (query : String) (history : List String)
    (hnd : history.Nodup)
    (hq : query.toList.all Char.isWhitespace = false) :
    (handleSearch query history true).head? = some query ∧
    (handleSearch query history true).Nodup ∧
    (handleSearch query history true).length ≤ 10 ∧
    handleSearch query history false = history := by
  have hcond : ¬ (query.toList.all Char.isWhitespace = true) := by
    rw [hq]
    simp
  have hdef : handleSearch query history true = updateHistory query history := by
    unfold handleSearch
    rw [if_neg hcond]
    simp
  refine ⟨?_, ?_, ?_, ?_⟩
  · rw [hdef]
    simp [updateHistory, List.take_succ_cons]
  · rw [hdef]
    refine (List.take_sublist _ _).nodup ?_
    refine List.nodup_cons.mpr ⟨?_, hnd.filter _⟩
    intro hmem
    exact absurd (List.of_mem_filter hmem) (by simp)
  · rw [hdef]
    exact (List.length_take_le _ _)
  · unfold handleSearch
    rw [if_neg hcond]
    simp

/-- Witness for C9 at a concrete input: searching "beta" with prior
history ["alpha", "beta"]. -/
theorem handleSearch_history_witness :
    (["alpha", "beta"] : List String).Nodup ∧
    ("beta".toList.all Char.isWhitespace = false) ∧
    (handleSearch "beta" ["alpha", "beta"] true).head? = some "beta" ∧
    (handleSearch "beta" ["alpha", "beta"] true).Nodup ∧
    (handleSearch "beta" ["alpha", "beta"] true).length ≤ 10 ∧
    handleSearch "beta" ["alpha", "beta"] false = ["alpha", "beta"] := by
  have h := handleSearch_history "beta" ["alpha", "beta"] (by decide)
    (by decide)
  exact ⟨by decide, by decide, h.1, h.2.1, h.2.2.1, h.2.2.2⟩

/-! ## C3 — concurrent start is rejected and harmless -/

/-- C3: whenever a job is `Scanning`, `Processing` or `Building`,
`start_indexing` fails with `ConcurrentIndexError` and leaves the whole
state — in particular the running job's status, counters, message and
target directory — unchanged. -/
theorem start_indexing_concurrent (s : OrchState) (dir : String)
    (dirValid : Bool)
    (h : s.job.status = .Scanning ∨ s.job.status = .Processing ∨
      s.job.status = .Building) :
    start_indexing s dir dirValid = (.error .ConcurrentIndexError, s) := by
  have ha : s.job.status.isActive = true := by
    rcases h with h | h | h <;> rw [h] <;> rfl
  unfold start_indexing
  rw [if_pos ha]

/-- Witness for C3: starting while `sampleProcessing` is running. -/
theorem start_indexing_concurrent_witness :
    start_indexing sampleProcessing "/other" true =
      (.error .ConcurrentIndexError, sampleProcessing) :=
  start_indexing_concurrent sampleProcessing "/other" true
    (Or.inr (Or.inl rfl))

/-! ## C5 — persist/load round trip -/

lemma lookup_metadata_self (l : List VSEntry)
    (hnd : (l.map VSEntry.chunk_id).Nodup) :
    ∀ e ∈ l, (l.map fun x => (x.chunk_id, x.metadata)).lookup e.chunk_id =
      some e.metadata := by
  induction l with
  | nil => simp
  | cons a l ih =>
    simp only [List.map_cons, List.nodup_cons] at hnd
    intro e he
    rcases List.mem_cons.mp he with rfl | he'
    · rw [List.map_cons, List.lookup, beq_self_eq_true]
    · have hne : (e.chunk_id == a.chunk_id) = false := by
        refine beq_false_of_ne ?_
        intro hcon
        exact hnd.1 (hcon ▸ List.mem_map.mpr ⟨e, he', rfl⟩)
      rw [List.map_cons, List.lookup]
      simp only [hne]
      exact ih hnd.2 e he'

lemma load_persist_aux (idx full : List VSEntry)
    (hl : ∀ e ∈ idx,
      (full.map fun x => (x.chunk_id, x.metadata)).lookup e.chunk_id =
        some e.metadata) :
    ((idx.map fun e => (e.chunk_id, e.embedding)).filterMap fun v =>
      ((full.map fun x => (x.chunk_id, x.metadata)).lookup v.1).map fun m =>
        { chunk_id := v.1, embedding := v.2, metadata := m }) = idx := by
  induction idx with
  | nil => rfl
  | cons a l ih =>
    simp only [List.map_cons, List.filterMap_cons]
    rw [hl a (List.mem_cons_self a l)]
    simp only [Option.map_some']
    rw [ih (fun e he => hl e (List.mem_cons_of_mem a he))]

/-- C5: for every `VectorIndex` (with its `chunk_id -> Chunk` map well
formed, i.e. chunk ids distinct), `persist()` followed by `load()`
reproduces an index whose set of `(chunk_id, embedding, metadata)` triples
equals the original's, order-independently. -/
theorem persist_load_roundtrip (idx : List VSEntry)
    (hnd : (idx.map VSEntry.chunk_id).Nodup) :
    ∃ idx', load (some (persist idx)) = .ok idx' ∧
      ∀ t, t ∈ idx'.map entryTriple ↔ t ∈ idx.map entryTriple := by
  refine ⟨idx, ?_, fun t => Iff.rfl⟩
  have hred : load (some (persist idx)) =
      .ok ((idx.map fun e => (e.chunk_id, e.embedding)).filterMap fun v =>
        ((idx.map fun x => (x.chunk_id, x.metadata)).lookup v.1).map fun m =>
          { chunk_id := v.1, embedding := v.2, metadata := m }) := rfl
  rw [hred, load_persist_aux idx idx (lookup_metadata_self idx hnd)]

/-- Witness for C5 on a concrete two-entry index. -/
theorem persist_load_roundtrip_witness :
    ([entryA, entryB].map VSEntry.chunk_id).Nodup ∧
    ∃ idx', load (some (persist [entryA, entryB])) = .ok idx' ∧
      ∀ t, t ∈ idx'.map entryTriple ↔ t ∈ [entryA, entryB].map entryTriple := by
  refine ⟨by decide, persist_load_roundtrip [entryA, entryB] (by decide)⟩

/-! ## C1 — search scores are clamped and thresholded -/

lemma mem_insertDesc {x a : Nat × ℤ} {l : List (Nat × ℤ)} :
    x ∈ insertDesc a l ↔ x = a ∨ x ∈ l := by
  induction l with
  | nil => simp [insertDesc]
  | cons b bs ih =>
    by_cases h : b.2 < a.2
    · simp [insertDesc, h]
    · simp only [insertDesc, if_neg h, List.mem_cons, ih]
      tauto

lemma mem_sortByScoreDesc {x : Nat × ℤ} {l : List (Nat × ℤ)} :
    x ∈ sortByScoreDesc l ↔ x ∈ l := by
  induction l with
  | nil => simp [sortByScoreDesc]
  | cons a as ih => simp [sortByScoreDesc, mem_insertDesc, ih]

lemma scoreOf_nonneg (s : ℚ) : 0 ≤ scoreOf s := le_max_left _ _

lemma scoreOf_le_100 (s : ℚ) : scoreOf s ≤ 100 :=
  max_le (by norm_num) (min_le_left _ _)

lemma resolveResult_score {entries : List VSEntry} {p : Nat × ℤ}
    {r : SearchResult} (h : resolveResult entries p = some r) :
    r.similarity_score = p.2 := by
  unfold resolveResult at h
  rcases ho : entries.find? (fun e => e.chunk_id == p.1) with _ | e
  · rw [ho] at h
    exact absurd h (by simp)
  · rw [ho] at h
    simp only [Option.map_some', Option.some.injEq] at h
    rw [← h]

/-- C1: every result returned by `search` on a published index has
`similarity_score` inside `[0, 100]`, the score is
`round(cosine_similarity * 100)` clamped to `[0, 100]` for the matched
entry's similarity, and no returned result scores below
`SIMILARITY_THRESHOLD * 100`. -/
theorem search_score_bounds (sim : List ℚ → ℚ) (entries : List VSEntry)
    (tko : Option Nat) (res : List SearchResult) (r : SearchResult)
    (hok : engineSearch sim (some entries) tko = .ok res) (hr : r ∈ res) :
    0 ≤ r.similarity_score ∧ r.similarity_score ≤ 100 ∧
    SIMILARITY_THRESHOLD * 100 ≤ (r.similarity_score : ℚ) ∧
    ∃ e ∈ entries, r.similarity_score = scoreOf (sim e.embedding) := by
  have hres : res = ((vsSearch sim entries (tko.getD TOP_K_RESULTS)).filter
      (fun q => decide (SIMILARITY_THRESHOLD * 100 ≤ (q.2 : ℚ)))).filterMap
      (resolveResult entries) := by
    have : engineSearch sim (some entries) tko =
        .ok (((vsSearch sim entries (tko.getD TOP_K_RESULTS)).filter
          (fun q => decide (SIMILARITY_THRESHOLD * 100 ≤ (q.2 : ℚ)))).filterMap
          (resolveResult entries)) := rfl
    rw [this] at hok
    exact (Except.ok.injEq _ _ ▸ hok).symm
  rw [hres] at hr
  obtain ⟨p, hp, hpr⟩ := List.mem_filterMap.mp hr
  have hscore : r.similarity_score = p.2 := resolveResult_score hpr
  have hp' := List.mem_filter.mp hp
  have hthr : SIMILARITY_THRESHOLD * 100 ≤ (p.2 : ℚ) := by
    have := hp'.2
    simpa using this
  have hmem : p ∈ vsSearch sim entries (tko.getD TOP_K_RESULTS) := hp'.1
  have hmem' : p ∈ sortByScoreDesc (entries.map
      (fun e => (e.chunk_id, scoreOf (sim e.embedding)))) :=
    List.mem_of_mem_take hmem
  have hmem'' : p ∈ entries.map
      (fun e => (e.chunk_id, scoreOf (sim e.embedding))) :=
    mem_sortByScoreDesc.mp hmem'
  obtain ⟨e, he, hpe⟩ := List.mem_map.mp hmem''
  have hp2 : p.2 = scoreOf (sim e.embedding) := by rw [← hpe]
  refine ⟨?_, ?_, ?_, e, he, ?_⟩
  · rw [hscore, hp2]
    exact scoreOf_nonneg _
  · rw [hscore, hp2]
    exact scoreOf_le_100 _
  · rw [hscore]
    exact hthr
  · rw [hscore, hp2]

/-- Witness for C1: a one-entry index queried with similarity 1 yields a
result with score 100 satisfying all the bounds. -/
theorem search_score_bounds_witness :
    engineSearch (fun _ => 1) (some [entryA]) none =
      .ok [{ file_name := "a.txt", file_path := "/docs/a.txt",
             file_size := 5, chunk_text := "hello".toList, chunk_index := 0,
             total_chunks := 1, similarity_score := 100 }] ∧
    (0 : ℤ) ≤ 100 ∧ (100 : ℤ) ≤ 100 ∧
    SIMILARITY_THRESHOLD * 100 ≤ ((100 : ℤ) : ℚ) ∧
    ∃ e ∈ [entryA], (100 : ℤ) = scoreOf ((fun _ => 1) e.embedding) := by
  have hok : engineSearch (fun _ => 1) (some [entryA]) none =
      .ok [{ file_name := "a.txt", file_path := "/docs/a.txt",
             file_size := 5, chunk_text := "hello".toList, chunk_index := 0,
             total_chunks := 1, similarity_score := 100 }] := by
    have hscore : scoreOf 1 = 100 := by
      norm_num [scoreOf, round_eq]
    simp only [engineSearch, vsSearch, List.map_cons, List.map_nil, hscore,
      sortByScoreDesc, insertDesc, List.take_succ_cons, List.take_nil,
      List.filter, SIMILARITY_THRESHOLD]
    norm_num [resolveResult, entryA, metaA, List.find?]
    rfl
  have h := search_score_bounds (fun _ => 1) [entryA] none _ _ hok
    (List.mem_singleton.mpr rfl)
  exact ⟨hok, h.1, h.2.1, h.2.2.1, h.2.2.2⟩

/-! ## C4 — a Failed job never disturbs the published index -/

lemma engineSearch_some_ok (sim : List ℚ → ℚ) (idx : List VSEntry)
    (tko : Option Nat) :
    ∃ res, engineSearch sim (some idx) tko = .ok res :=
  ⟨_, rfl⟩

/-- C4: whenever a step takes the job to `Failed`, the previously
published `VectorIndex` is unchanged, and if one existed it remains
servable by `search` (which returns `.ok`, not `IndexNotFound`). -/
theorem failed_preserves_published (s s' : OrchState) (l : StepLabel)
    (hstep : Step s l s') (hfail : s'.job.status = .Failed) :
    s'.published = s.published ∧
    ∀ idx, s.published = some idx → ∀ sim tko,
      ∃ res, engineSearch sim s'.published tko = .ok res := by
  cases hstep with
  | startJob dir h => exact absurd hfail (by simp [freshJob])
  | scanDone n h => exact absurd hfail (by simp)
  | fileOk es h =>
    refine absurd hfail ?_
    show ¬ (s.job.status = .Failed)
    rw [h]
    simp
  | fileSkip h =>
    refine absurd hfail ?_
    show ¬ (s.job.status = .Failed)
    rw [h]
    simp
  | processingDone h => exact absurd hfail (by simp)
  | publishIndex h => exact absurd hfail (by simp)
  | clearIdx h => exact absurd hfail (by simp [idleJob])
  | failJob msg h =>
    refine ⟨rfl, ?_⟩
    intro idx hidx sim tko
    show ∃ res, engineSearch sim s.published tko = .ok res
    rw [hidx]
    exact engineSearch_some_ok sim idx tko

/-- Witness for C4: the embedding service becomes unreachable while
`sampleProcessing` runs; the previously published index stays servable. -/
theorem failed_preserves_published_witness :
    sampleFailed.published = sampleProcessing.published ∧
    ∃ res, engineSearch (fun _ => 1) sampleFailed.published none =
      .ok res := by
  have h := failed_preserves_published sampleProcessing sampleFailed
    (.failJob "embedding service unreachable")
    (Step.failJob sampleProcessing "embedding service unreachable" rfl) rfl
  exact ⟨h.1, h.2 [entryA, entryB] rfl (fun _ => 1) none⟩

/-! ## C6 — observable statuses and the frontend polling loop -/

/-- C6: every status observable through `get_progress` is one of the six
`JobStatus` values; a job-fatal error step ends in `Failed` and the
successful publish step ends in `Completed`; the frontend polling loop
instead recognizes exactly the strings "completed" and "error". -/
theorem observable_status (s : OrchState) :
    ((get_progress s).status = .Idle ∨ (get_progress s).status = .Scanning ∨
     (get_progress s).status = .Processing ∨
     (get_progress s).status = .Building ∨
     (get_progress s).status = .Completed ∨
     (get_progress s).status = .Failed) ∧
    (∀ s' msg, Step s (.failJob msg) s' →
      (get_progress s').status = .Failed) ∧
    (∀ s', Step s .publishIndex s' →
      (get_progress s').status = .Completed) ∧
    pollHandle "completed" = .stopSuccess ∧
    pollHandle "error" = .stopError ∧
    (∀ st, st ≠ "completed" → st ≠ "error" →
      pollHandle st = .keepPolling) := by
  refine ⟨?_, ?_, ?_, by simp [pollHandle], by simp [pollHandle], ?_⟩
  · cases h : (get_progress s).status <;> tauto
  · intro s' msg hstep
    cases hstep
    rfl
  · intro s' hstep
    cases hstep
    rfl
  · intro st h1 h2
    simp [pollHandle, h1, h2]

/-- Witness for C6: a fatal step from `sampleProcessing` is observed as
`Failed`, and the poller does not stop on the string "scanning". -/
theorem observable_status_witness :
    (get_progress sampleFailed).status = .Failed ∧
    pollHandle "scanning" = .keepPolling := by
  have h := observable_status sampleProcessing
  exact ⟨h.2.1 sampleFailed "embedding service unreachable"
      (Step.failJob sampleProcessing "embedding service unreachable" rfl),
    h.2.2.2.2.2 "scanning" (by decide) (by decide)⟩

/-! ## C7 — clear_index resets everything and search reports IndexNotFound -/

lemma step_preserves_nopub {s s' : OrchState} {l : StepLabel}
    (hstep : Step s l s') (hl : l ≠ .publishIndex)
    (h : s.published = none) : s'.published = none := by
  cases hstep with
  | publishIndex hb => exact absurd rfl hl
  | clearIdx hb => rfl
  | startJob dir hb => exact h
  | scanDone n hb => exact h
  | fileOk es hb => exact h
  | fileSkip hb => exact h
  | processingDone hb => exact h
  | failJob msg hb => exact h

lemma trace_preserves_nopub {s t : OrchState} {ls : List StepLabel}
    (htr : Trace s ls t) (hl : ∀ l ∈ ls, l ≠ .publishIndex)
    (h : s.published = none) : t.published = none := by
  induction htr with
  | refl s => exact h
  | cons hstep htr ih =>
    exact ih (fun l hml => hl l (List.mem_cons_of_mem _ hml))
      (step_preserves_nopub hstep (hl _ (List.mem_cons_self _ _)) h)

/-- C7: with no active job, `clear_index` succeeds, drops the in-memory
and durable store state, resets the job to `Idle`, and every subsequent
`search` before any new publish fails with `IndexNotFound`. -/
theorem clear_index_spec (s : OrchState)
    (h : s.job.status.isActive = false) :
    (clear_index s).1 = .ok () ∧
    (clear_index s).2.published = none ∧
    (clear_index s).2.storage = none ∧
    (clear_index s).2.pending = [] ∧
    (clear_index s).2.job.status = .Idle ∧
    (∀ sim tko, engineSearch sim (clear_index s).2.published tko =
      .error .IndexNotFound) ∧
    (∀ ls t, Trace (clear_index s).2 ls t →
      (∀ l ∈ ls, l ≠ .publishIndex) → ∀ sim tko,
        engineSearch sim t.published tko = .error .IndexNotFound) := by
  have hcond : ¬ (s.job.status.isActive = true) := by simp [h]
  have hc : clear_index s = (.ok (),
      { job := idleJob, jobGen := s.jobGen + 1, pending := [],
        published := none, storage := none }) := by
    unfold clear_index
    rw [if_neg hcond]
  rw [hc]
  refine ⟨rfl, rfl, rfl, rfl, rfl, fun sim tko => rfl, ?_⟩
  intro ls t htr hl sim tko
  have hnone : t.published = none := trace_preserves_nopub htr hl rfl
  rw [hnone]
  rfl

/-- Witness for C7: clearing from `sampleIdle` (no active job), with the
empty trace as the subsequent execution. -/
theorem clear_index_spec_witness :
    (clear_index sampleIdle).1 = .ok () ∧
    (clear_index sampleIdle).2.published = none ∧
    (clear_index sampleIdle).2.job.status = .Idle ∧
    engineSearch (fun _ => 1) (clear_index sampleIdle).2.published none =
      .error .IndexNotFound := by
  have h := clear_index_spec sampleIdle rfl
  exact ⟨h.1, h.2.1, h.2.2.2.2.1, h.2.2.2.2.2.1 (fun _ => 1) none⟩

/-! ## C8 — progress counters are monotone within one job -/

lemma step_gen_le {s s' : OrchState} {l : StepLabel} (h : Step s l s') :
    s.jobGen ≤ s'.jobGen := by
  cases h <;> simp

lemma step_scanFresh {s s' : OrchState} {l : StepLabel} (h : Step s l s') :
    ScanFresh s' := by
  cases h with
  | startJob dir hb => exact fun _ => ⟨rfl, rfl⟩
  | scanDone n hb => exact fun hc => absurd hc (by simp)
  | fileOk es hb =>
    intro hc
    have hc' : s.job.status = .Scanning := hc
    rw [hb] at hc'
    simp at hc'
  | fileSkip hb =>
    intro hc
    have hc' : s.job.status = .Scanning := hc
    rw [hb] at hc'
    simp at hc'
  | processingDone hb => exact fun hc => absurd hc (by simp)
  | publishIndex hb => exact fun hc => absurd hc (by simp)
  | failJob msg hb => exact fun hc => absurd hc (by simp)
  | clearIdx hb => exact fun hc => absurd hc (by simp [idleJob])

lemma step_counts_mono {s s' : OrchState} {l : StepLabel}
    (h : Step s l s') (hs : ScanFresh s) (hgen : s'.jobGen = s.jobGen) :
    s.job.current_count ≤ s'.job.current_count ∧
    s.job.total_count ≤ s'.job.total_count := by
  cases h with
  | startJob dir hb =>
    have hg : s.jobGen + 1 = s.jobGen := hgen
    omega
  | clearIdx hb =>
    have hg : s.jobGen + 1 = s.jobGen := hgen
    omega
  | scanDone n hb =>
    obtain ⟨hcur, htot⟩ := hs hb
    constructor
    · exact Nat.le_refl _
    · show s.job.total_count ≤ n
      rw [htot]
      exact Nat.zero_le n
  | fileOk es hb => exact ⟨Nat.le_succ _, Nat.le_refl _⟩
  | fileSkip hb => exact ⟨Nat.le_succ _, Nat.le_refl _⟩
  | processingDone hb => exact ⟨Nat.le_refl _, Nat.le_refl _⟩
  | publishIndex hb => exact ⟨Nat.le_refl _, Nat.le_refl _⟩
  | failJob msg hb => exact ⟨Nat.le_refl _, Nat.le_refl _⟩

lemma trace_gen_le {s t : OrchState} {ls : List StepLabel}
    (htr : Trace s ls t) : s.jobGen ≤ t.jobGen := by
  induction htr with
  | refl s => exact Nat.le_refl _
  | cons hstep htr ih => exact Nat.le_trans (step_gen_le hstep) ih

/-- C8: within one indexing job (same job generation), progress counters
only ever grow: any single step and any whole execution observed through
`get_progress` leaves `current_count` and `total_count` no smaller. -/
theorem progress_monotone :
    (∀ s s' l, Step s l s' → ScanFresh s → s'.jobGen = s.jobGen →
      (get_progress s).current_count ≤ (get_progress s').current_count ∧
      (get_progress s).total_count ≤ (get_progress s').total_count) ∧
    (∀ s ls t, Trace s ls t → ScanFresh s → t.jobGen = s.jobGen →
      (get_progress s).current_count ≤ (get_progress t).current_count ∧
      (get_progress s).total_count ≤ (get_progress t).total_count) := by
  constructor
  · intro s s' l hstep hs hgen
    exact step_counts_mono hstep hs hgen
  · intro s ls t htr
    induction htr with
    | refl s => exact fun _ _ => ⟨Nat.le_refl _, Nat.le_refl _⟩
    | @cons s m t l ls hstep htr ih =>
      intro hs hgen
      have h1 := step_gen_le hstep
      have h2 := trace_gen_le htr
      have hgm : m.jobGen = s.jobGen := by omega
      have hgt : t.jobGen = m.jobGen := by omega
      have ha := step_counts_mono hstep hs hgm
      have hb := ih (step_scanFresh hstep) hgt
      exact ⟨Nat.le_trans ha.1 hb.1, Nat.le_trans ha.2 hb.2⟩

/-- Witness for C8: one `fileSkipped` step from `sampleProcessing`. -/
theorem progress_monotone_witness :
    (get_progress sampleProcessing).current_count ≤
      (get_progress sampleProcessed).current_count ∧
    (get_progress sampleProcessing).total_count ≤
      (get_progress sampleProcessed).total_count :=
  progress_monotone.1 sampleProcessing sampleProcessed .fileSkipped
    (Step.fileSkip sampleProcessing rfl)
    (fun hc => absurd hc (by decide)) rfl

/-! ## C2 — chunker properties -/

lemma chunkRaw_cons_eq (size step : Nat) (hstep : step ≠ 0) (t : List Char)
    (ht : t ≠ []) (off : Nat) :
    chunkRaw size step t off =
      (off, t.take size) :: chunkRaw size step (t.drop step) (off + step) := by
  cases t with
  | nil => exact absurd rfl ht
  | cons a l =>
    rw [chunkRaw]
    simp [hstep]

lemma chunkRaw_offset_le (size step : Nat) (t : List Char) (off : Nat) :
    ∀ w ∈ chunkRaw size step t off, off ≤ w.1 := by
  induction t, off using chunkRaw.induct size step with
  | case1 off => simp [chunkRaw]
  | case2 a l off h => simp [chunkRaw, h]
  | case3 a l off h ih =>
    rw [chunkRaw]
    simp only [dif_neg h]
    intro w hw
    rcases List.mem_cons.mp hw with hh | hh
    · subst hh
      exact Nat.le_refl _
    · have := ih w hh
      omega

lemma chunkRaw_offsets_lt (size step : Nat) (hstep : step ≠ 0)
    (t : List Char) (off : Nat) :
    (chunkRaw size step t off).Pairwise (fun a b => a.1 < b.1) := by
  induction t, off using chunkRaw.induct size step with
  | case1 off => simp [chunkRaw]
  | case2 a l off h => exact absurd h hstep
  | case3 a l off h ih =>
    rw [chunkRaw]
    simp only [dif_neg h]
    refine List.pairwise_cons.mpr ⟨?_, ih⟩
    intro w hw
    have := chunkRaw_offset_le size step _ (off + step) w hw
    omega

lemma chunkRaw_head (size step : Nat) (hstep : step ≠ 0) (t : List Char)
    (ht : t ≠ []) (off : Nat) :
    (chunkRaw size step t off).head? = some (off, t.take size) := by
  rw [chunkRaw_cons_eq size step hstep t ht off]
  rfl

lemma chunkRaw_chain (size step : Nat) (t : List Char) (off : Nat) :
    (chunkRaw size step t off).Chain' (fun a b => b.1 = a.1 + step) := by
  induction t, off using chunkRaw.induct size step with
  | case1 off => simp [chunkRaw]
  | case2 a l off h => simp [chunkRaw, h]
  | case3 a l off h ih =>
    rw [chunkRaw]
    simp only [dif_neg h]
    refine List.chain'_cons'.mpr ⟨?_, ih⟩
    intro y hy
    by_cases hd : (a :: l).drop step = []
    · rw [hd] at hy
      simp [chunkRaw] at hy
    · rw [chunkRaw_head size step h _ hd] at hy
      simp only [Option.mem_def, Option.some.injEq] at hy
      rw [← hy]

lemma chunkRaw_mem_slice (size step : Nat) (t : List Char) (off : Nat) :
    ∀ w ∈ chunkRaw size step t off,
      w.2 = (t.drop (w.1 - off)).take size := by
  induction t, off using chunkRaw.induct size step with
  | case1 off => simp [chunkRaw]
  | case2 a l off h => simp [chunkRaw, h]
  | case3 a l off h ih =>
    rw [chunkRaw]
    simp only [dif_neg h]
    intro w hw
    rcases List.mem_cons.mp hw with hh | hh
    · subst hh
      simp
    · have hle := chunkRaw_offset_le size step _ (off + step) w hh
      have hs := ih w hh
      rw [hs, List.drop_drop]
      congr 2
      omega

lemma joinDrops_nil (overlap : Nat) : joinDrops overlap [] = [] := rfl

lemma joinDrops_cons (overlap : Nat) (w : Nat × List Char)
    (ws : List (Nat × List Char)) :
    joinDrops overlap (w :: ws) =
      w.2.drop overlap ++ joinDrops overlap ws := by
  simp [joinDrops]

lemma take_append_joinDrops (step overlap : Nat) (hstep : step ≠ 0)
    (t : List Char) (off : Nat) :
    t.take overlap ++
      joinDrops overlap (chunkRaw (step + overlap) step t off) = t := by
  induction t, off using chunkRaw.induct (step + overlap) step with
  | case1 off => simp [chunkRaw, joinDrops]
  | case2 a l off h => exact absurd h hstep
  | case3 a l off h ih =>
    rw [chunkRaw]
    simp only [dif_neg h]
    rw [joinDrops_cons, ← List.append_assoc]
    have h1 : (a :: l).take overlap =
        ((a :: l).take (step + overlap)).take overlap := by
      rw [List.take_take]
      congr 1
      omega
    rw [h1, List.take_append_drop, List.take_add, List.append_assoc, ih]
    exact List.take_append_drop step (a :: l)

lemma reconstruct_chunkRaw (size step overlap : Nat) (hstep : step ≠ 0)
    (hsize : size = step + overlap) (t : List Char) :
    reconstruct overlap ((chunkRaw size step t 0).map
      (fun w => ⟨w.2, w.1⟩)) = t := by
  subst hsize
  cases t with
  | nil => simp [chunkRaw, reconstruct]
  | cons a l =>
    rw [chunkRaw_cons_eq _ step hstep _ (by simp) 0]
    unfold reconstruct
    rw [List.map_cons, List.map_cons, List.flatten_cons, List.map_map]
    have hhead : chunkPiece overlap ⟨(a :: l).take (step + overlap), 0⟩ =
        (a :: l).take (step + overlap) := by
      simp [chunkPiece]
    rw [hhead]
    have hrest : (chunkRaw (step + overlap) step ((a :: l).drop step)
        (0 + step)).map (chunkPiece overlap ∘ fun w => ⟨w.2, w.1⟩) =
        (chunkRaw (step + overlap) step ((a :: l).drop step) (0 + step)).map
          (fun w => w.2.drop overlap) := by
      refine List.map_congr_left ?_
      intro w hw
      have hle := chunkRaw_offset_le (step + overlap) step _ (0 + step) w hw
      show chunkPiece overlap ⟨w.2, w.1⟩ = w.2.drop overlap
      unfold chunkPiece
      rw [if_neg (by simp only []; omega)]
    rw [hrest]
    show (a :: l).take (step + overlap) ++
      joinDrops overlap
        (chunkRaw (step + overlap) step ((a :: l).drop step) (0 + step)) =
      a :: l
    rw [List.take_add, List.append_assoc,
      take_append_joinDrops step overlap hstep]
    exact List.take_append_drop step (a :: l)

lemma dropped_window_filter (overlap : Nat) (w : Nat × List Char)
    (h : keepWindow w = false) :
    (chunkPiece overlap ⟨w.2, w.1⟩).filter (fun c => !c.isWhitespace) =
      [] := by
  have hall : ∀ c ∈ w.2, (!c.isWhitespace) = false := by
    intro c hc
    simpa using List.any_eq_false.mp h c hc
  unfold chunkPiece
  by_cases h0 : (Chunk.mk w.2 w.1).char_offset = 0
  · rw [if_pos h0]
    exact List.filter_eq_nil_iff.mpr (fun c hc => by simp [hall c hc])
  · rw [if_neg h0]
    exact List.filter_eq_nil_iff.mpr
      (fun c hc => by simp [hall c (List.mem_of_mem_drop hc)])

lemma filter_flatten_of_dropped (P : Char → Bool)
    (f : Nat × List Char → List Char) (ws : List (Nat × List Char))
    (hdrop : ∀ w ∈ ws, keepWindow w = false → (f w).filter P = []) :
    (((ws.filter keepWindow).map f).flatten).filter P =
      ((ws.map f).flatten).filter P := by
  induction ws with
  | nil => rfl
  | cons w ws ih =>
    have ih' := ih (fun x hx hxk => hdrop x (List.mem_cons_of_mem _ hx) hxk)
    by_cases hk : keepWindow w = true
    · rw [List.filter_cons_of_pos hk, List.map_cons, List.map_cons,
        List.flatten_cons, List.flatten_cons, List.filter_append,
        List.filter_append, ih']
    · have hk' : keepWindow w = false := by
        simpa using hk
      rw [List.filter_cons_of_neg hk, List.map_cons, List.flatten_cons,
        List.filter_append, hdrop w (List.mem_cons_self _ _) hk',
        List.nil_append, ih']

lemma chunk_reconstruct (size step overlap : Nat) (hstep : step ≠ 0)
    (hsize : size = step + overlap) (t : List Char) :
    (reconstruct overlap (((chunkRaw size step t 0).filter
        keepWindow).map (fun w => ⟨w.2, w.1⟩))).filter
      (fun c => !c.isWhitespace) =
      t.filter (fun c => !c.isWhitespace) := by
  unfold reconstruct
  rw [List.map_map]
  rw [filter_flatten_of_dropped (fun c => !c.isWhitespace)
    (chunkPiece overlap ∘ fun w => ⟨w.2, w.1⟩) _
    (fun w _ hw => dropped_window_filter overlap w hw)]
  have hrec := reconstruct_chunkRaw size step overlap hstep hsize t
  unfold reconstruct at hrec
  rw [List.map_map] at hrec
  rw [hrec]

/-- C2: for `overlap < chunk_size`, `chunk` succeeds and its chunks have
strictly increasing `char_offset`s, the raw windows advance by
`chunk_size - overlap`, every chunk is an exact (truncated, never padded)
slice of the text, whitespace-only windows are dropped, and the
concatenation minus the overlap reconstructs the non-whitespace content;
for `overlap >= chunk_size` the call fails with `InvalidConfiguration`. -/
theorem chunker_spec (text : List Char) (chunk_size overlap : Nat) :
    (chunk_size ≤ overlap →
      chunk text chunk_size overlap = .error .InvalidConfiguration) ∧
    (overlap < chunk_size → ∃ cs,
      chunk text chunk_size overlap = .ok cs ∧
      (cs.map Chunk.char_offset).Pairwise (· < ·) ∧
      (chunkRaw chunk_size (chunk_size - overlap) text 0).Chain'
        (fun a b => b.1 = a.1 + (chunk_size - overlap)) ∧
      (∀ c ∈ cs, c.text = (text.drop c.char_offset).take chunk_size ∧
        c.text.length ≤ chunk_size ∧
        (∃ ch ∈ c.text, (!ch.isWhitespace) = true)) ∧
      (reconstruct overlap cs).filter (fun c => !c.isWhitespace) =
        text.filter (fun c => !c.isWhitespace)) := by
  constructor
  · intro h
    unfold chunk
    rw [if_pos h]
  · intro hov
    have hstep : chunk_size - overlap ≠ 0 := by omega
    have hsize : chunk_size = (chunk_size - overlap) + overlap := by omega
    have hnle : ¬ (chunk_size ≤ overlap) := by omega
    refine ⟨((chunkRaw chunk_size (chunk_size - overlap) text 0).filter
        keepWindow).map (fun w => ⟨w.2, w.1⟩), ?_, ?_, ?_, ?_, ?_⟩
    · unfold chunk
      rw [if_neg hnle]
    · rw [List.map_map, List.pairwise_map]
      exact (chunkRaw_offsets_lt chunk_size (chunk_size - overlap) hstep
        text 0).filter keepWindow
    · exact chunkRaw_chain chunk_size (chunk_size - overlap) text 0
    · intro c hc
      obtain ⟨w, hw, hwc⟩ := List.mem_map.mp hc
      obtain ⟨hwmem, hwkeep⟩ := List.mem_filter.mp hw
      have hslice := chunkRaw_mem_slice chunk_size (chunk_size - overlap)
        text 0 w hwmem
      refine ⟨?_, ?_, ?_⟩
      · rw [← hwc]
        show w.2 = (text.drop w.1).take chunk_size
        rw [hslice, Nat.sub_zero]
      · rw [← hwc]
        show w.2.length ≤ chunk_size
        rw [hslice]
        exact List.length_take_le _ _
      · rw [← hwc]
        show ∃ ch ∈ w.2, (!ch.isWhitespace) = true
        exact List.any_eq_true.mp hwkeep
    · exact chunk_reconstruct chunk_size (chunk_size - overlap) overlap
        hstep hsize text

/-- Witness for C2: `overlap ≥ chunk_size` fails on a concrete call, and a
concrete mixed-whitespace text is chunked with all the stated
properties. -/
theorem chunker_spec_witness :
    chunk "abc".toList 2 4 = .error .InvalidConfiguration ∧
    (∃ cs, chunk "ab  ij".toList 4 2 = .ok cs ∧
      (cs.map Chunk.char_offset).Pairwise (· < ·) ∧
      (chunkRaw 4 (4 - 2) "ab  ij".toList 0).Chain'
        (fun a b => b.1 = a.1 + (4 - 2)) ∧
      (∀ c ∈ cs, c.text = ("ab  ij".toList.drop c.char_offset).take 4 ∧
        c.text.length ≤ 4 ∧
        (∃ ch ∈ c.text, (!ch.isWhitespace) = true)) ∧
      (reconstruct 2 cs).filter (fun c => !c.isWhitespace) =
        "ab  ij".toList.filter (fun c => !c.isWhitespace)) :=
  ⟨(chunker_spec "abc".toList 2 4).1 (by decide),
   (chunker_spec "ab  ij".toList 4 2).2 (by decide)⟩

end NLPFinder
